import Mathlib

/-!
Verification of `boost_histogram/_internal/axestuple.py`: the `ArrayTuple`
and `AxesTuple` containers.  NumPy arrays are modelled as a shape together
with a total function from multi-indices to integer values; broadcasting,
sparse `meshgrid` and whole-ensemble reductions follow NumPy's documented
semantics, which is the behaviour the source relies on.
-/

namespace BH

/-- An N-dimensional numeric array: a shape and a value for every
multi-index (only indices that are valid for the shape are meaningful). -/
structure NDArray where
  shape : List Nat
  data : List Nat → Int

instance : Inhabited NDArray := ⟨⟨[], fun _ => 0⟩⟩

/-- All valid multi-indices of a shape, in row-major (C) order. -/
def allIndices : List Nat → List (List Nat)
  | [] => [[]]
  | n :: rest => (List.range n).flatMap fun i => (allIndices rest).map (i :: ·)

/-- The elements of an array, flattened in row-major order. -/
def NDArray.elems (a : NDArray) : List Int :=
  (allIndices a.shape).map a.data

/-- `idx` is a valid multi-index for `shape`. -/
def ValidIdx (shape idx : List Nat) : Prop :=
  idx.length = shape.length ∧ ∀ d, d < shape.length → idx.getD d 0 < shape.getD d 1

instance (shape idx : List Nat) : Decidable (ValidIdx shape idx) := by
  unfold ValidIdx; infer_instance

/-- Logical equality of arrays: same shape and same value at every valid index. -/
def NDArray.Eqv (a b : NDArray) : Prop :=
  a.shape = b.shape ∧ ∀ idx, ValidIdx a.shape idx → a.data idx = b.data idx

/-- NumPy's rule for combining one dimension of two shapes: equal sizes
broadcast to themselves, a size-1 dimension stretches to the other. -/
def broadcastDim (a b : Nat) : Option Nat :=
  if a = 1 then some b else if b = 1 then some a else if a = b then some a else none

/-- One folding step when combining the sizes of several operands. -/
def bstep (acc : Option Nat) (d : Nat) : Option Nat :=
  acc.bind fun a => broadcastDim a d

/-- Combine the sizes that all operands have at one dimension. -/
def bcastDims (ds : List Nat) : Option Nat :=
  ds.foldl bstep (some 1)

/-- Left-pad a shape with singleton dimensions up to rank `r`. -/
def padShape (r : Nat) (s : List Nat) : List Nat :=
  List.replicate (r - s.length) 1 ++ s

/-- The rank of the result of broadcasting: the largest operand rank. -/
def maxRank (shapes : List (List Nat)) : Nat :=
  (shapes.map List.length).foldl max 0

/-- Option-valued map over a list, failing if any element fails. -/
def optMapM (f : α → Option β) : List α → Option (List β)
  | [] => some []
  | x :: xs => (f x).bind fun y => (optMapM f xs).map (y :: ·)

/-- The common broadcast shape of a family of shapes, per NumPy's rules;
`none` when the shapes are not broadcast-compatible. -/
def commonShape (shapes : List (List Nat)) : Option (List Nat) :=
  optMapM (fun d => bcastDims (shapes.map fun s => (padShape (maxRank shapes) s).getD d 1))
    (List.range (maxRank shapes))

/-- A read-only broadcast view of `a` at shape `t`: leading extra dimensions
are dropped and singleton dimensions of `a` always read position 0. -/
def NDArray.broadcastTo (a : NDArray) (t : List Nat) : NDArray :=
  { shape := t,
    data := fun idx =>
      a.data (List.zipWith (fun s j => if s = 1 then 0 else j) a.shape
        (idx.drop (t.length - a.shape.length))) }

/-- `np.broadcast_arrays`: every operand viewed at the common shape. -/
def broadcastArrays (arrs : List NDArray) : Option (List NDArray) :=
  (commonShape (arrs.map NDArray.shape)).map fun t => arrs.map (NDArray.broadcastTo · t)

/-- `np.asarray` applied to a list of same-shaped arrays: stacking along a
new leading dimension. -/
def npStack (bs : List NDArray) : NDArray :=
  { shape := bs.length :: (bs.headD default).shape,
    data := fun idx => (bs.getD (idx.headD 0) default).data idx.tail }

/-- `np.meshgrid(*vs, sparse=True, indexing='ij')`: for K 1-D inputs,
K outputs of rank K, the i-th having the i-th input laid out along
dimension i and singleton size along every other dimension. -/
def meshgridSparse (vs : List (List Int)) : List NDArray :=
  (List.range vs.length).map fun i =>
    { shape := (List.range vs.length).map fun d => if d = i then (vs.getD i []).length else 1,
      data := fun idx => (vs.getD i []).getD (idx.getD i 0) 0 }

/-- Result value of a NumPy reduction over integer data. -/
inductive RVal where
  | int (n : Int)
  | bool (b : Bool)
deriving DecidableEq

/-- The six NumPy reductions named in `ArrayTuple._REDUCTIONS`, applied to a
flat list of elements.  `min`/`max` of an empty ensemble is NumPy's
zero-size reduction error, modelled as `none`. -/
def applyRed (name : String) (xs : List Int) : Option RVal :=
  if name = "sum" then some (.int xs.sum)
  else if name = "prod" then some (.int xs.prod)
  else if name = "any" then some (.bool (xs.any (· != 0)))
  else if name = "all" then some (.bool (xs.all (· != 0)))
  else if name = "min" then xs.min?.map RVal.int
  else if name = "max" then xs.max?.map RVal.int
  else none

/-- `ArrayTuple._REDUCTIONS` from the source. -/
def REDUCTIONS : List String := ["sum", "any", "all", "min", "max", "prod"]

/-- Result of `ArrayTuple.__getattr__`: either the reduction closure
`partial(getattr(np, name), np.broadcast_arrays(*self))` — which captures the
name and the broadcast members — or element-wise forwarding to the members. -/
inductive ATAttr where
  | reduction (name : String) (bargs : Option (List NDArray))
  | forwarded (vals : List (Option Int))

namespace ArrayTuple

/-- `ArrayTuple.__getattr__`: reduction names are intercepted before any
member attribute is consulted; other names are read off every member
(`memberAttr` models `getattr` on a member array). -/
def getattr_ (arrs : List NDArray) (memberAttr : NDArray → String → Option Int)
    (name : String) : ATAttr :=
  if name ∈ REDUCTIONS then .reduction name (broadcastArrays arrs)
  else .forwarded (arrs.map fun a => memberAttr a name)

/-- Invoking the closure returned for a reduction name:
`np.<name>(np.broadcast_arrays(*self))`, i.e. the named reduction of the
stack of all broadcast members.  The outer `Option` is broadcast failure,
the inner one a zero-size `min`/`max`. -/
def callReduction (name : String) (arrs : List NDArray) : Option (Option RVal) :=
  (broadcastArrays arrs).map fun bs => applyRed name (npStack bs).elems

/-- `ArrayTuple.broadcast`: `np.broadcast_arrays(*self)` rewrapped. -/
def broadcast (arrs : List NDArray) : Option (List NDArray) :=
  broadcastArrays arrs

end ArrayTuple

/-- Stated from the spec's words, for comparison with the code: broadcast
all members to a common shape, then reduce jointly over the whole ensemble
of element values. -/
def specEnsembleReduce (name : String) (arrs : List NDArray) : Option (Option RVal) :=
  (broadcastArrays arrs).map fun bs => applyRed name (bs.flatMap NDArray.elems)

/-- Reducing each member separately (no broadcasting) and combining the
per-member results — the reading the spec rules out for `sum`. -/
def perMemberSum (arrs : List NDArray) : Int :=
  (arrs.map fun a => a.elems.sum).sum

/-- Python exception kinds raised by this module. -/
inductive PyErr where
  | typeError (msg : String)
  | indexError (msg : String)
  | attributeError (msg : String)
  | valueError (msg : String)
deriving DecidableEq

/-- The axis-descriptor capability set consumed by `AxesTuple`
(`boost_histogram._internal.axis.Axis` is opaque to this module): the named
scalar and sequence views, the three per-axis lookups, and a generic
attribute namespace reached only through forwarding. -/
structure Axis where
  size : Nat
  extent : Nat
  centers : List Int
  edges : List Int
  widths : List Int
  value : Int → Int
  bin : Int → Int
  index : Int → Int
  attrs : String → Option Int

/-- Mutating one attribute of an axis descriptor (`s.__setattr__(attr, v)`). -/
def Axis.setattrA (a : Axis) (name : String) (v : Int) : Axis :=
  { a with attrs := fun n => if n = name then some v else a.attrs n }

/-- A candidate element handed to the `AxesTuple` constructor: either a real
axis descriptor or some other object (carrying its printed form). -/
inductive AxObj where
  | axis (a : Axis)
  | nonAxis (descr : String)

/-- `isinstance(item, Axis)`. -/
def AxObj.isAxis : AxObj → Bool
  | .axis _ => true
  | .nonAxis _ => false

/-- The state of an `AxesTuple`: its member axes plus instance-level
attribute storage.  `__slots__ = ()` means the storage can never be
written, which the theorems make explicit. -/
structure AxesT where
  members : List Axis
  localAttrs : List (String × List Int)

namespace AxesTuple

/-- `AxesTuple.__slots__ = ()`. -/
def slots : List String := []

/-- The attribute names resolved on the class itself, so that
`__getattr__` (which Python only calls after normal lookup fails) never
sees them. -/
def containerAttrNames : List String :=
  ["size", "extent", "centers", "edges", "widths", "value", "bin", "index",
   "count", "broadcast", "_MGRIDOPTS", "_REDUCTIONS"]

/-- The first element of the iterable that is not an `Axis`, if any
(the loop in `AxesTuple.__init__`). -/
def findNonAxis : List AxObj → Option String
  | [] => none
  | .axis _ :: rest => findNonAxis rest
  | .nonAxis d :: _ => some d

/-- `AxesTuple(iterable)`: validates every element, raising `TypeError`
naming the first offender; on success the container holds exactly the
given axes and empty instance storage. -/
def mk_ (items : List AxObj) : Except PyErr AxesT :=
  match findNonAxis items with
  | some d => .error (.typeError ("Only an iterable of Axis supported in AxesTuple, got " ++ d))
  | none => .ok { members := items.filterMap (fun x => match x with
                    | .axis a => some a
                    | .nonAxis _ => none),
                  localAttrs := [] }

/-- `AxesTuple.size`. -/
def size (t : AxesT) : List Nat := t.members.map Axis.size

/-- `AxesTuple.extent`. -/
def extent (t : AxesT) : List Nat := t.members.map Axis.extent

/-- `AxesTuple.centers`: sparse 'ij' meshgrid of the member center
sequences, wrapped as an `ArrayTuple`. -/
def centers (t : AxesT) : List NDArray := meshgridSparse (t.members.map Axis.centers)

/-- `AxesTuple.edges`. -/
def edges (t : AxesT) : List NDArray := meshgridSparse (t.members.map Axis.edges)

/-- `AxesTuple.widths`. -/
def widths (t : AxesT) : List NDArray := meshgridSparse (t.members.map Axis.widths)

/-- The message of the `IndexError` raised on an arity mismatch. -/
def arityMsg : String := "Must have the same number of arguments as the number of axes"

/-- `AxesTuple.value(*indexes)`. -/
def value (t : AxesT) (indexes : List Int) : Except PyErr (List Int) :=
  if indexes.length ≠ t.members.length then .error (.indexError arityMsg)
  else .ok (List.zipWith (fun a x => a.value x) t.members indexes)

/-- `AxesTuple.bin(*indexes)`. -/
def bin (t : AxesT) (indexes : List Int) : Except PyErr (List Int) :=
  if indexes.length ≠ t.members.length then .error (.indexError arityMsg)
  else .ok (List.zipWith (fun a x => a.bin x) t.members indexes)

/-- `AxesTuple.index(*values)`. -/
def index (t : AxesT) (values : List Int) : Except PyErr (List Int) :=
  if values.length ≠ t.members.length then .error (.indexError arityMsg)
  else .ok (List.zipWith (fun a x => a.index x) t.members values)

/-- Argument of `AxesTuple.__getitem__`: a plain index or a slice `a:b`
with non-negative bounds. -/
inductive GetItemArg where
  | idx (i : Nat)
  | slice (a b : Nat)

/-- Result of `AxesTuple.__getitem__`. -/
inductive GetItemRes where
  | axis (a : Axis)
  | tup (t : AxesT)
  | err (e : PyErr)

/-- Python's `xs[a:b]` for non-negative clamped bounds. -/
def pySlice (a b : Nat) (xs : List α) : List α :=
  (xs.take b).drop a

/-- `AxesTuple.__getitem__`: a single index returns the bare member, a
slice is re-wrapped through the validating constructor. -/
def getitem (t : AxesT) : GetItemArg → GetItemRes
  | .idx i =>
      if h : i < t.members.length then .axis (t.members.get ⟨i, h⟩)
      else .err (.indexError "tuple index out of range")
  | .slice a b =>
      match mk_ ((pySlice a b t.members).map AxObj.axis) with
      | .ok t' => .tup t'
      | .error e => .err e

/-- Result of attribute lookup on an `AxesTuple`. -/
inductive AxAttr where
  | container
  | forwarded (vals : List (Option Int))
deriving DecidableEq

/-- Attribute read: names defined on the class resolve there; otherwise
`__getattr__` forwards the read to every member axis. -/
def getattr_ (t : AxesT) (name : String) : AxAttr :=
  if name ∈ containerAttrNames then .container
  else .forwarded (t.members.map fun s => s.attrs name)

/-- Modelled from the spec: `zip_strict` lives in
`boost_histogram._internal.utils`, which is not among the sources here;
per the spec, the write forwarding it implements "must match the number of
axes, or the operation fails (arity mismatch)". -/
def zipStrict (xs : List α) (ys : List β) : Except PyErr (List (α × β)) :=
  if xs.length = ys.length then .ok (xs.zip ys)
  else .error (.valueError "zip_strict arguments have mismatched lengths")

/-- `AxesTuple.__setattr__`: first try normal storage on the instance —
possible only for a declared slot, and `__slots__` is empty — then
distribute the values positionally over the member axes. -/
def setattr (t : AxesT) (name : String) (vs : List Int) : Except PyErr AxesT :=
  if name ∈ slots then
    .ok { t with localAttrs := (name, vs) :: t.localAttrs }
  else
    (zipStrict t.members vs).map fun pairs =>
      { t with members := pairs.map fun p => Axis.setattrA p.1 name p.2 }

end AxesTuple

/-- The grid-shape contract of `centers`/`edges`/`widths`, stated for the
lists of per-axis 1-D coordinate sequences `vs`: K sparse outputs whose
i-th has the length of sequence i along dimension i and 1 elsewhere, and
whose joint broadcast is dense of shape `(len v0, ..., len v(K-1))` with
the sparse values replicated along the singleton dimensions. -/
def GridOK (vs : List (List Int)) (out : List NDArray) : Prop :=
  out.length = vs.length ∧
  (∀ i (hi : i < out.length),
      (out.get ⟨i, hi⟩).shape
        = (List.range vs.length).map fun d => if d = i then (vs.getD i []).length else 1) ∧
  ∃ db, broadcastArrays out = some db ∧ db.length = vs.length ∧
    (∀ j (hj : j < db.length), (db.get ⟨j, hj⟩).shape = vs.map List.length) ∧
    (∀ j (hj : j < db.length) (idx : List Nat), ValidIdx (vs.map List.length) idx →
        (db.get ⟨j, hj⟩).data idx = (vs.getD j []).getD (idx.getD j 0) 0)

/-- The per-axis dispatch contract of `value`/`bin`/`index`: the result is
one entry per axis, entry i being the i-th axis's method applied to the
i-th argument. -/
def PerAxisCall (members : List Axis) (f : Axis → Int → Int) (args rs : List Int) : Prop :=
  rs.length = members.length ∧
  ∀ i (h1 : i < rs.length) (h2 : i < members.length) (h3 : i < args.length),
    rs.get ⟨i, h1⟩ = f (members.get ⟨i, h2⟩) (args.get ⟨i, h3⟩)

/-! ### List helpers -/

theorem getD_zipWith (f : Nat → Nat → Nat) (as bs : List Nat) (i : Nat)
    (ha : i < as.length) (hb : i < bs.length) :
    (List.zipWith f as bs).getD i 0 = f (as.getD i 0) (bs.getD i 0) := by
  have hz : i < (List.zipWith f as bs).length := by
    rw [List.length_zipWith]; omega
  rw [List.getD_eq_getElem _ _ hz, List.getD_eq_getElem _ _ ha, List.getD_eq_getElem _ _ hb]
  exact List.getElem_zipWith ..

theorem getD_map_range (f : Nat → α) (n i : Nat) (d : α) (h : i < n) :
    ((List.range n).map f).getD i d = f i := by
  have h' : i < ((List.range n).map f).length := by simpa using h
  rw [List.getD_eq_getElem _ _ h', List.getElem_map, List.getElem_range]

theorem map_range_getD (l : List α) (d : α) :
    (List.range l.length).map (fun i => l.getD i d) = l := by
  induction l with
  | nil => rfl
  | cons a t ih =>
    simp only [List.length_cons, List.range_succ_eq_map, List.map_cons, List.getD_cons_zero,
      List.map_map]
    congr 1

theorem get_map_range (f : Nat → α) (n i : Nat)
    (h' : i < ((List.range n).map f).length) :
    ((List.range n).map f).get ⟨i, h'⟩ = f i := by
  rw [List.get_eq_getElem, List.getElem_map, List.getElem_range]

theorem zipWith_mask_valid : ∀ (t idx : List Nat), idx.length = t.length →
    (∀ d, d < t.length → idx.getD d 0 < t.getD d 1) →
    List.zipWith (fun s j => if s = 1 then 0 else j) t idx = idx := by
  intro t
  induction t with
  | nil =>
    intro idx h _
    cases idx with
    | nil => rfl
    | cons j js => simp at h
  | cons s t ih =>
    intro idx hlen hb
    cases idx with
    | nil => simp at hlen
    | cons j js =>
      have hj : j < (s :: t).getD 0 1 := by
        have := hb 0 (by simp)
        simpa using this
      simp only [List.getD_cons_zero] at hj
      simp only [List.zipWith_cons_cons]
      congr 1
      · by_cases hs : s = 1
        · subst hs
          have : j = 0 := by omega
          simp [this]
        · simp [hs]
      · apply ih js (by simpa using hlen)
        intro d hd
        have := hb (d + 1) (by simpa using Nat.succ_lt_succ hd)
        simpa using this

theorem forall₂_map_self {R : α → α → Prop} (f : α → α) (l : List α)
    (h : ∀ x ∈ l, R (f x) x) : List.Forall₂ R (l.map f) l := by
  induction l with
  | nil => exact .nil
  | cons x t ih => exact .cons (h x (by simp)) (ih fun z hz => h z (by simp [hz]))

theorem flatMap_congr_mem (l : List α) (f g : α → List β)
    (h : ∀ a ∈ l, f a = g a) : l.flatMap f = l.flatMap g := by
  induction l with
  | nil => rfl
  | cons a t ih =>
    simp only [List.flatMap_cons]
    rw [h a (by simp), ih fun z hz => h z (by simp [hz])]

theorem range_flatMap_getD (l : List α) (d : α) (f : α → List β) :
    (List.range l.length).flatMap (fun k => f (l.getD k d)) = l.flatMap f := by
  conv_rhs => rw [← map_range_getD l d]
  rw [List.flatMap_map]

theorem zip_map_snd (ms : List α) (vs : List β) (h : ms.length = vs.length) :
    ((ms.zip vs).map fun p => some p.2) = vs.map some := by
  induction ms generalizing vs with
  | nil =>
    cases vs with
    | nil => rfl
    | cons v vt => simp at h
  | cons m mt ih =>
    cases vs with
    | nil => simp at h
    | cons v vt => simp [List.zip_cons_cons, ih vt (by simpa using h)]

/-! ### Broadcasting lemmas -/

theorem broadcastDim_one_left (b : Nat) : broadcastDim 1 b = some b := by
  simp [broadcastDim]

theorem broadcastDim_one_right (a : Nat) : broadcastDim a 1 = some a := by
  by_cases h : a = 1 <;> simp [broadcastDim, h]

theorem broadcastDim_self (a : Nat) : broadcastDim a a = some a := by
  by_cases h : a = 1 <;> simp [broadcastDim, h]

theorem bfold_const (l : List Nat) (a : Nat) (h : ∀ y ∈ l, y = a) :
    l.foldl bstep (some a) = some a := by
  induction l with
  | nil => rfl
  | cons y t ih =>
    have hy : y = a := h y (by simp)
    subst hy
    simp only [List.foldl_cons]
    have hstep : bstep (some y) y = some y := by
      simp [bstep, broadcastDim_self]
    rw [hstep]
    exact ih fun z hz => h z (by simp [hz])

theorem bfold_ones (l : List Nat) (a : Nat) (h : ∀ y ∈ l, y = 1) :
    l.foldl bstep (some a) = some a := by
  induction l with
  | nil => rfl
  | cons y t ih =>
    have hy : y = 1 := h y (by simp)
    subst hy
    simp only [List.foldl_cons]
    have hstep : bstep (some a) 1 = some a := by
      simp [bstep, broadcastDim_one_right]
    rw [hstep]
    exact ih fun z hz => h z (by simp [hz])

theorem bcastDims_const (l : List Nat) (a : Nat) (hne : l ≠ []) (h : ∀ y ∈ l, y = a) :
    bcastDims l = some a := by
  cases l with
  | nil => exact absurd rfl hne
  | cons y t =>
    have hy : y = a := h y (by simp)
    subst hy
    unfold bcastDims
    simp only [List.foldl_cons]
    have hstep : bstep (some 1) y = some y := by
      simp [bstep, broadcastDim_one_left]
    rw [hstep]
    exact bfold_const t y fun z hz => h z (by simp [hz])

theorem bcastDims_split (as bs : List Nat) (x : Nat)
    (ha : ∀ y ∈ as, y = 1) (hb : ∀ y ∈ bs, y = 1) :
    bcastDims (as ++ x :: bs) = some x := by
  unfold bcastDims
  rw [List.foldl_append, bfold_ones as 1 ha]
  simp only [List.foldl_cons]
  have hstep : bstep (some 1) x = some x := by
    simp [bstep, broadcastDim_one_left]
  rw [hstep]
  exact bfold_ones bs x hb

theorem bcastDims_onehot (K d x : Nat) (hd : d < K) :
    bcastDims ((List.range K).map fun i => if d = i then x else 1) = some x := by
  obtain ⟨m, rfl⟩ : ∃ m, K = d + (m + 1) := ⟨K - d - 1, by omega⟩
  rw [List.range_add, List.map_append, List.map_map, List.range_succ_eq_map]
  simp only [List.map_cons, List.map_map, Function.comp]
  have hhead : (if d = d + 0 then x else 1) = x := by simp
  rw [hhead]
  apply bcastDims_split
  · intro y hy
    obtain ⟨i, hi, rfl⟩ := List.mem_map.1 hy
    have : i < d := List.mem_range.1 hi
    simp [Nat.ne_of_gt this]
  · intro y hy
    obtain ⟨i, hi, rfl⟩ := List.mem_map.1 hy
    have : d ≠ d + Nat.succ i := by omega
    simp [this]

theorem foldl_max_self (l : List Nat) (a : Nat) (h : ∀ y ∈ l, y = a) :
    l.foldl max a = a := by
  induction l with
  | nil => rfl
  | cons y t ih =>
    have hy : y = a := h y (by simp)
    subst hy
    simp only [List.foldl_cons, Nat.max_self]
    exact ih fun z hz => h z (by simp [hz])

theorem foldl_max_const (l : List Nat) (a : Nat) (hne : l ≠ []) (h : ∀ y ∈ l, y = a) :
    l.foldl max 0 = a := by
  cases l with
  | nil => exact absurd rfl hne
  | cons y t =>
    have hy : y = a := h y (by simp)
    subst hy
    simp only [List.foldl_cons, Nat.zero_max]
    exact foldl_max_self t y fun z hz => h z (by simp [hz])

theorem optMapM_eq_map (f : α → Option β) (g : α → β) (l : List α)
    (h : ∀ x ∈ l, f x = some (g x)) : optMapM f l = some (l.map g) := by
  induction l with
  | nil => rfl
  | cons x t ih =>
    simp only [optMapM]
    rw [h x (by simp), ih fun z hz => h z (by simp [hz])]
    rfl

theorem getD_map_length (vs : List (List Int)) (d : Nat) (h : d < vs.length) :
    (vs.map List.length).getD d 1 = (vs.getD d []).length := by
  rw [List.getD_eq_getElem _ _ (by simpa using h), List.getElem_map,
    List.getD_eq_getElem _ _ h]

theorem commonShape_all_eq (shs : List (List Nat)) (t : List Nat) (hne : shs ≠ [])
    (h : ∀ s ∈ shs, s = t) : commonShape shs = some t := by
  have hR : maxRank shs = t.length := by
    unfold maxRank
    apply foldl_max_const _ _ (by simpa using hne)
    intro y hy
    obtain ⟨s, hs, rfl⟩ := List.mem_map.1 hy
    rw [h s hs]
  unfold commonShape
  rw [hR]
  rw [optMapM_eq_map _ (fun d => t.getD d 1)]
  · have hl : (List.range t.length).map (fun d => t.getD d 1) = t := map_range_getD t 1
    rw [hl]
  · intro d _
    apply bcastDims_const _ _ (by simpa using hne)
    intro y hy
    obtain ⟨s, hs, rfl⟩ := List.mem_map.1 hy
    rw [h s hs]
    unfold padShape
    simp [Nat.sub_self]

theorem broadcastTo_self (b : NDArray) (t : List Nat) (hsh : b.shape = t) :
    NDArray.Eqv (b.broadcastTo t) b := by
  constructor
  · simp [NDArray.broadcastTo, hsh]
  · intro idx hv
    obtain ⟨hlen, hb⟩ := hv
    simp only [NDArray.broadcastTo] at hlen hb ⊢
    have h0 : t.length - b.shape.length = 0 := by rw [hsh, Nat.sub_self]
    rw [h0, List.drop_zero]
    congr 1
    rw [← hsh] at hlen hb
    exact zipWith_mask_valid b.shape idx hlen hb

theorem meshgrid_shapes (vs : List (List Int)) :
    (meshgridSparse vs).map NDArray.shape
      = (List.range vs.length).map
          (fun i => (List.range vs.length).map fun d => if d = i then (vs.getD i []).length else 1) := by
  unfold meshgridSparse
  rw [List.map_map]
  rfl

theorem meshgrid_getElem (vs : List (List Int)) (i : Nat) (hi : i < (meshgridSparse vs).length) :
    (meshgridSparse vs)[i]
      = { shape := (List.range vs.length).map fun d => if d = i then (vs.getD i []).length else 1,
          data := fun idx => (vs.getD i []).getD (idx.getD i 0) 0 } := by
  simp [meshgridSparse]

theorem commonShape_meshgrid (vs : List (List Int)) :
    commonShape ((meshgridSparse vs).map NDArray.shape) = some (vs.map List.length) := by
  rcases Nat.eq_zero_or_pos vs.length with hK | hK
  · have hnil : vs = [] := List.length_eq_zero.1 hK
    subst hnil
    rfl
  · rw [meshgrid_shapes]
    have hR : maxRank ((List.range vs.length).map
        (fun i => (List.range vs.length).map fun d => if d = i then (vs.getD i []).length else 1))
        = vs.length := by
      unfold maxRank
      rw [List.map_map]
      apply foldl_max_const
      · apply List.ne_nil_of_length_pos
        simpa using hK
      · intro y hy
        obtain ⟨i, hi, rfl⟩ := List.mem_map.1 hy
        simp
    unfold commonShape
    rw [hR]
    rw [optMapM_eq_map _ (fun d => (vs.map List.length).getD d 1)]
    · have h2 : (List.range vs.length).map (fun d => (vs.map List.length).getD d 1)
          = vs.map List.length := by
        have h3 := map_range_getD (vs.map List.length) 1
        simpa using h3
      rw [h2]
    · intro d hd
      have hdK : d < vs.length := List.mem_range.1 hd
      rw [List.map_map]
      have hfun : ∀ i ∈ List.range vs.length,
          ((fun s => (padShape vs.length s).getD d 1) ∘ fun i =>
            (List.range vs.length).map fun dd => if dd = i then (vs.getD i []).length else 1) i
          = (if d = i then (vs.getD d []).length else 1) := by
        intro i hi
        simp only [Function.comp]
        have hpad : padShape vs.length
            ((List.range vs.length).map fun dd => if dd = i then (vs.getD i []).length else 1)
            = (List.range vs.length).map fun dd => if dd = i then (vs.getD i []).length else 1 := by
          unfold padShape
          simp [Nat.sub_self]
        rw [hpad, getD_map_range _ _ _ _ hdK]
        by_cases hdi : d = i
        · subst hdi; rfl
        · simp [hdi]
      rw [List.map_congr_left hfun, bcastDims_onehot vs.length d _ hdK,
        getD_map_length vs d hdK]

theorem gridOK_meshgrid (vs : List (List Int)) : GridOK vs (meshgridSparse vs) := by
  refine ⟨by simp [meshgridSparse], ?_, ?_⟩
  · intro i hi
    rw [List.get_eq_getElem, meshgrid_getElem vs i hi]
  · refine ⟨(meshgridSparse vs).map (NDArray.broadcastTo · (vs.map List.length)), ?_,
      by simp [meshgridSparse], ?_, ?_⟩
    · unfold broadcastArrays
      rw [commonShape_meshgrid]
      rfl
    · intro j hj
      rw [List.get_eq_getElem, List.getElem_map]
      rfl
    · intro j hj idx hv
      have hjlen : j < (meshgridSparse vs).length := by simpa using hj
      have hjK : j < vs.length := by simpa [meshgridSparse] using hjlen
      rw [List.get_eq_getElem, List.getElem_map, meshgrid_getElem vs j hjlen]
      obtain ⟨hlen, hb⟩ := hv
      simp only [NDArray.broadcastTo]
      have hdrop : (vs.map List.length).length
          - ((List.range vs.length).map fun d => if d = j then (vs.getD j []).length else 1).length
          = 0 := by simp
      rw [hdrop, List.drop_zero]
      have hzip : (List.zipWith (fun s j => if s = 1 then 0 else j)
            ((List.range vs.length).map fun d => if d = j then (vs.getD j []).length else 1)
            idx).getD j 0
          = if (((List.range vs.length).map
              fun d => if d = j then (vs.getD j []).length else 1).getD j 0) = 1 then 0
            else idx.getD j 0 := by
        rw [getD_zipWith]
        · simpa using hjK
        · have : idx.length = vs.length := by simpa using hlen
          omega
      have hsj : (((List.range vs.length).map
          fun d => if d = j then (vs.getD j []).length else 1).getD j 0)
          = (vs.getD j []).length := by
        rw [getD_map_range _ _ _ _ hjK]
        simp
      rw [hzip, hsj]
      by_cases h1 : (vs.getD j []).length = 1
      · have hlt : idx.getD j 0 < (vs.getD j []).length := by
          have hbj := hb j (by simpa using hjK)
          rwa [getD_map_length vs j hjK] at hbj
        have hz : idx.getD j 0 = 0 := by omega
        rw [if_pos h1, hz]
      · rw [if_neg h1]

theorem elems_npStack (bs : List NDArray) (t : List Nat) (h : ∀ b ∈ bs, b.shape = t) :
    (npStack bs).elems = bs.flatMap NDArray.elems := by
  cases bs with
  | nil => rfl
  | cons b rest =>
    have hb : b.shape = t := h b (by simp)
    unfold npStack NDArray.elems
    simp only [List.headD_cons]
    rw [hb]
    rw [allIndices, List.map_flatMap]
    have hinner : ∀ i ∈ List.range (b :: rest).length,
        (((allIndices t).map (i :: ·)).map fun idx =>
            ((b :: rest).getD (idx.headD 0) default).data idx.tail)
          = (allIndices ((b :: rest).getD i default).shape).map
              ((b :: rest).getD i default).data := by
      intro i hi
      have hi' : i < (b :: rest).length := List.mem_range.1 hi
      have hsh : ((b :: rest).getD i default).shape = t := by
        rw [List.getD_eq_getElem _ _ hi']
        exact h _ (List.getElem_mem _)
      rw [List.map_map, hsh]
      apply List.map_congr_left
      intro idx _
      simp [Function.comp]
    rw [flatMap_congr_mem _ _ _ hinner]
    exact range_flatMap_getD (b :: rest) default fun a => (allIndices a.shape).map a.data

theorem mk_axes_ok (axs : List Axis) :
    AxesTuple.mk_ (axs.map AxObj.axis) = .ok ⟨axs, []⟩ := by
  have hfind : ∀ l : List Axis, AxesTuple.findNonAxis (l.map AxObj.axis) = none := by
    intro l
    induction l with
    | nil => rfl
    | cons a t ih => simpa [AxesTuple.findNonAxis] using ih
  unfold AxesTuple.mk_
  rw [hfind]
  have hext : (axs.map AxObj.axis).filterMap (fun x => match x with
      | .axis a => some a
      | .nonAxis _ => none) = axs := by
    induction axs with
    | nil => rfl
    | cons a t ih => simp [List.filterMap_cons, ih]
  rw [hext]

theorem broadcast_dense (l : List NDArray) (t : List Nat)
    (h : ∀ a ∈ l, a.shape = t) (hne : l ≠ []) :
    ArrayTuple.broadcast l = some (l.map (NDArray.broadcastTo · t)) ∧
    List.Forall₂ NDArray.Eqv (l.map (NDArray.broadcastTo · t)) l := by
  constructor
  · unfold ArrayTuple.broadcast broadcastArrays
    rw [commonShape_all_eq (l.map NDArray.shape) t (by simpa using hne)]
    · rfl
    · intro s hs
      obtain ⟨a, ha, rfl⟩ := List.mem_map.1 hs
      exact h a ha
  · exact forall₂_map_self _ _ fun a ha => broadcastTo_self a t (h a ha)

/-! ### Claims -/

/-- C1 (amended): over K axes, each of `centers`, `edges` and `widths`
returns a Vector-of-Arrays of length K in axis order where array i has
rank K with the length of axis i's corresponding 1-D coordinate sequence
along dimension i (equal to the axis size for `centers` and `widths`;
for `edges` it is the length of the edges sequence, size + 1 on standard
axes) and size 1 along every other dimension; `broadcast()` yields K
arrays of the full dense shape given by those sequence lengths, each
element equal to the corresponding sparse value replicated along the
singleton dimensions. -/
theorem c1_grid_shapes (t : AxesT) :
    GridOK (t.members.map Axis.centers) (AxesTuple.centers t) ∧
    GridOK (t.members.map Axis.edges) (AxesTuple.edges t) ∧
    GridOK (t.members.map Axis.widths) (AxesTuple.widths t) := by
  unfold AxesTuple.centers AxesTuple.edges AxesTuple.widths
  exact ⟨gridOK_meshgrid _, gridOK_meshgrid _, gridOK_meshgrid _⟩

/-- C1 witness: the grid contract instantiated at two concrete axes of
sizes 3 and 2, with a concrete valid dense index. -/
theorem c1_grid_shapes_witness :
    GridOK [[10, 20, 30], [5, 15]]
      (AxesTuple.centers
        ⟨[⟨3, 4, [10, 20, 30], [0, 1, 2, 3], [1, 1, 1], fun x => x, fun x => x, fun x => x,
            fun _ => none⟩,
          ⟨2, 3, [5, 15], [0, 10, 20], [10, 10], fun x => x, fun x => x, fun x => x,
            fun _ => none⟩], []⟩) ∧
    ValidIdx [3, 2] [2, 1] :=
  ⟨(c1_grid_shapes
      ⟨[⟨3, 4, [10, 20, 30], [0, 1, 2, 3], [1, 1, 1], fun x => x, fun x => x, fun x => x,
          fun _ => none⟩,
        ⟨2, 3, [5, 15], [0, 10, 20], [10, 10], fun x => x, fun x => x, fun x => x,
          fun _ => none⟩], []⟩).1, by decide⟩

/-- C1 counterexample: for two axes of sizes 3 and 2 whose edge sequences
have lengths 4 and 3 (the standard size + 1 bin boundaries), the `edges`
grid arrays have shapes `(4,1)` and `(1,3)`, not the `(3,1)` and `(1,2)`
the claim's "shape s_i along dimension i" asserts. -/
theorem c1_counterexample :
    AxesTuple.size
      ⟨[⟨3, 4, [10, 20, 30], [0, 1, 2, 3], [1, 1, 1], fun x => x, fun x => x, fun x => x,
          fun _ => none⟩,
        ⟨2, 3, [5, 15], [0, 10, 20], [10, 10], fun x => x, fun x => x, fun x => x,
          fun _ => none⟩], []⟩ = [3, 2] ∧
    (AxesTuple.edges
      ⟨[⟨3, 4, [10, 20, 30], [0, 1, 2, 3], [1, 1, 1], fun x => x, fun x => x, fun x => x,
          fun _ => none⟩,
        ⟨2, 3, [5, 15], [0, 10, 20], [10, 10], fun x => x, fun x => x, fun x => x,
          fun _ => none⟩], []⟩).map NDArray.shape = [[4, 1], [1, 3]] ∧
    [[4, 1], [1, 3]] ≠ [[3, 1], [1, 2]] := by
  refine ⟨by decide, by decide, by decide⟩

/-- C2: accessing a reduction name on a Vector-of-Arrays and calling it
computes the reduction jointly over all members after broadcasting them to
a common shape and stacking — equal to the spec's ensemble reduction — and
is not equivalent to reducing each member separately and then combining,
as the concrete `sum` instance shows (66 jointly vs 33 per-member). -/
theorem c2_reduction_ensemble (name : String) (_hn : name ∈ REDUCTIONS)
    (arrs bs : List NDArray) (hb : broadcastArrays arrs = some bs) :
    ArrayTuple.callReduction name arrs = some (applyRed name (bs.flatMap NDArray.elems)) ∧
    ArrayTuple.callReduction name arrs = specEnsembleReduce name arrs ∧
    ArrayTuple.callReduction "sum"
        [(⟨[2, 1], fun idx => ([1, 2] : List Int).getD (idx.getD 0 0) 0⟩ : NDArray),
         ⟨[1, 2], fun idx => ([10, 20] : List Int).getD (idx.getD 1 0) 0⟩]
      ≠ some (some (RVal.int (perMemberSum
        [(⟨[2, 1], fun idx => ([1, 2] : List Int).getD (idx.getD 0 0) 0⟩ : NDArray),
         ⟨[1, 2], fun idx => ([10, 20] : List Int).getD (idx.getD 1 0) 0⟩]))) := by
  have hkey : ArrayTuple.callReduction name arrs
      = some (applyRed name (bs.flatMap NDArray.elems)) := by
    unfold ArrayTuple.callReduction
    rw [hb]
    unfold broadcastArrays at hb
    rcases Option.map_eq_some'.1 hb with ⟨t0, hcs, hmap⟩
    subst hmap
    have hsh : ∀ b ∈ arrs.map (NDArray.broadcastTo · t0), b.shape = t0 := by
      intro b hbm
      obtain ⟨x, hx, rfl⟩ := List.mem_map.1 hbm
      rfl
    simp only [Option.map_some']
    rw [elems_npStack _ t0 hsh]
  refine ⟨hkey, ?_, by decide⟩
  unfold specEnsembleReduce
  rw [hb]
  exact hkey

/-- C2 witness: the ensemble equation at the concrete two-member tuple. -/
theorem c2_reduction_ensemble_witness :
    ("sum" ∈ REDUCTIONS) ∧
    ArrayTuple.callReduction "sum"
        [(⟨[2, 1], fun idx => ([1, 2] : List Int).getD (idx.getD 0 0) 0⟩ : NDArray),
         ⟨[1, 2], fun idx => ([10, 20] : List Int).getD (idx.getD 1 0) 0⟩]
      = specEnsembleReduce "sum"
        [(⟨[2, 1], fun idx => ([1, 2] : List Int).getD (idx.getD 0 0) 0⟩ : NDArray),
         ⟨[1, 2], fun idx => ([10, 20] : List Int).getD (idx.getD 1 0) 0⟩] :=
  ⟨by decide,
    (c2_reduction_ensemble "sum" (by decide)
      [(⟨[2, 1], fun idx => ([1, 2] : List Int).getD (idx.getD 0 0) 0⟩ : NDArray),
       ⟨[1, 2], fun idx => ([10, 20] : List Int).getD (idx.getD 1 0) 0⟩]
      ((broadcastArrays
        [(⟨[2, 1], fun idx => ([1, 2] : List Int).getD (idx.getD 0 0) 0⟩ : NDArray),
         ⟨[1, 2], fun idx => ([10, 20] : List Int).getD (idx.getD 1 0) 0⟩]).getD [])
      rfl).2.1⟩

/-- C6: `broadcast()` is idempotent — broadcasting the result of a
broadcast again succeeds and leaves every member logically unchanged
(same shape, same value at every valid index) — and broadcasting members
already at the full dense common shape leaves their logical values
unchanged. -/
theorem c6_broadcast_idempotent (arrs bs arrs2 : List NDArray) (t : List Nat)
    (h1 : ArrayTuple.broadcast arrs = some bs)
    (h2 : ∀ a ∈ arrs2, a.shape = t) (h3 : arrs2 ≠ []) :
    (∃ bs2, ArrayTuple.broadcast bs = some bs2 ∧ List.Forall₂ NDArray.Eqv bs2 bs) ∧
    (∃ ds, ArrayTuple.broadcast arrs2 = some ds ∧ List.Forall₂ NDArray.Eqv ds arrs2) := by
  constructor
  · unfold ArrayTuple.broadcast broadcastArrays at h1
    rcases Option.map_eq_some'.1 h1 with ⟨t0, hcs, hmap⟩
    subst hmap
    cases arrs with
    | nil => exact ⟨[], rfl, List.Forall₂.nil⟩
    | cons a arest =>
      have hsh : ∀ b ∈ (a :: arest).map (NDArray.broadcastTo · t0), b.shape = t0 := by
        intro b hbm
        obtain ⟨x, hx, rfl⟩ := List.mem_map.1 hbm
        rfl
      have hne : (a :: arest).map (NDArray.broadcastTo · t0) ≠ [] := by simp
      obtain ⟨heq, hfa⟩ := broadcast_dense _ t0 hsh hne
      exact ⟨_, heq, hfa⟩
  · obtain ⟨heq, hfa⟩ := broadcast_dense arrs2 t h2 h3
    exact ⟨_, heq, hfa⟩

theorem perAxisCall_zipWith (members : List Axis) (f : Axis → Int → Int) (args : List Int)
    (h : args.length = members.length) :
    PerAxisCall members f args (List.zipWith (fun a x => f a x) members args) := by
  constructor
  · rw [List.length_zipWith]; omega
  · intro i h1 h2 h3
    simp [List.get_eq_getElem, List.getElem_zipWith]

theorem findNonAxis_of_mem : ∀ (items : List AxObj), (∃ x ∈ items, x.isAxis = false) →
    ∃ d, AxesTuple.findNonAxis items = some d := by
  intro items
  induction items with
  | nil =>
    rintro ⟨x, hx, _⟩
    cases hx
  | cons y rest ih =>
    rintro ⟨x, hx, hxa⟩
    cases y with
    | nonAxis d => exact ⟨d, rfl⟩
    | axis a =>
      have hx' : x ∈ rest := by
        rcases List.mem_cons.1 hx with h | h
        · subst h; simp [AxObj.isAxis] at hxa
        · exact h
      obtain ⟨d, hfind⟩ := ih ⟨x, hx', hxa⟩
      exact ⟨d, by simpa [AxesTuple.findNonAxis] using hfind⟩

/-- C3 (amended): with an argument count different from the number of axes,
`value`/`bin`/`index` raise an `IndexError` carrying the fixed message
"Must have the same number of arguments as the number of axes" — an arity
error that asserts the count must equal the number of axes but does not
state the numeric count; with exactly one argument per axis each call
returns the tuple whose entry i is the i-th axis's method applied to the
i-th argument. -/
theorem c3_arity (t : AxesT) (args : List Int) :
    (args.length ≠ t.members.length →
      AxesTuple.value t args = .error (.indexError AxesTuple.arityMsg) ∧
      AxesTuple.bin t args = .error (.indexError AxesTuple.arityMsg) ∧
      AxesTuple.index t args = .error (.indexError AxesTuple.arityMsg)) ∧
    (args.length = t.members.length →
      (∃ rs, AxesTuple.value t args = .ok rs ∧ PerAxisCall t.members Axis.value args rs) ∧
      (∃ rs, AxesTuple.bin t args = .ok rs ∧ PerAxisCall t.members Axis.bin args rs) ∧
      (∃ rs, AxesTuple.index t args = .ok rs ∧ PerAxisCall t.members Axis.index args rs)) := by
  constructor
  · intro hne
    exact ⟨by simp [AxesTuple.value, hne], by simp [AxesTuple.bin, hne],
      by simp [AxesTuple.index, hne]⟩
  · intro heq
    exact ⟨⟨_, by simp [AxesTuple.value, heq], perAxisCall_zipWith _ _ _ heq⟩,
      ⟨_, by simp [AxesTuple.bin, heq], perAxisCall_zipWith _ _ _ heq⟩,
      ⟨_, by simp [AxesTuple.index, heq], perAxisCall_zipWith _ _ _ heq⟩⟩

/-- C3 witness: a one-axis container answers `value` with one argument and
raises the arity error with two. -/
theorem c3_arity_witness :
    (∃ rs, AxesTuple.value
        ⟨[⟨1, 2, [0], [0, 1], [1], fun x => x + 1, fun x => x, fun x => x, fun _ => none⟩], []⟩
        [4] = .ok rs ∧
      PerAxisCall [⟨1, 2, [0], [0, 1], [1], fun x => x + 1, fun x => x, fun x => x,
        fun _ => none⟩] Axis.value [4] rs) ∧
    AxesTuple.value
        ⟨[⟨1, 2, [0], [0, 1], [1], fun x => x + 1, fun x => x, fun x => x, fun _ => none⟩], []⟩
        [1, 2] = .error (.indexError AxesTuple.arityMsg) :=
  ⟨((c3_arity
      ⟨[⟨1, 2, [0], [0, 1], [1], fun x => x + 1, fun x => x, fun x => x, fun _ => none⟩], []⟩
      [4]).2 (by decide)).1,
   ((c3_arity
      ⟨[⟨1, 2, [0], [0, 1], [1], fun x => x + 1, fun x => x, fun x => x, fun _ => none⟩], []⟩
      [1, 2]).1 (by decide)).1⟩

/-- C3 counterexample: for two axes and one argument the raised error
carries the fixed message, and that message contains no digit at all, so
it does not state the required count (2). -/
theorem c3_counterexample :
    AxesTuple.value
      ⟨[⟨1, 1, [0], [0, 1], [1], fun x => x, fun x => x, fun x => x, fun _ => none⟩,
        ⟨1, 1, [0], [0, 1], [1], fun x => x, fun x => x, fun x => x, fun _ => none⟩], []⟩ [5]
      = .error (.indexError AxesTuple.arityMsg) ∧
    (AxesTuple.arityMsg.toList.all fun c => !c.isDigit) = true :=
  ⟨rfl, by decide⟩

/-- C4: constructing an `AxesTuple` from a sequence containing a non-axis
element fails with a `TypeError` naming the first offending element — no
container is produced — while construction from any sequence of axes
(including the empty one) succeeds with exactly those members. -/
theorem c4_construction (items : List AxObj) (axs : List Axis)
    (h : ∃ x ∈ items, x.isAxis = false) :
    (∃ d, AxesTuple.findNonAxis items = some d ∧
      AxesTuple.mk_ items = .error (.typeError
        ("Only an iterable of Axis supported in AxesTuple, got " ++ d))) ∧
    AxesTuple.mk_ (axs.map AxObj.axis) = .ok ⟨axs, []⟩ := by
  obtain ⟨d, hfind⟩ := findNonAxis_of_mem items h
  refine ⟨⟨d, hfind, ?_⟩, mk_axes_ok axs⟩
  unfold AxesTuple.mk_
  rw [hfind]

/-- C4 witness: a one-element list holding a non-axis is rejected with the
message naming it, and a concrete singleton axis list is accepted. -/
theorem c4_construction_witness :
    (∃ x ∈ [AxObj.nonAxis "3.2"], x.isAxis = false) ∧
    ((∃ d, AxesTuple.findNonAxis [AxObj.nonAxis "3.2"] = some d ∧
      AxesTuple.mk_ [AxObj.nonAxis "3.2"] = .error (.typeError
        ("Only an iterable of Axis supported in AxesTuple, got " ++ d))) ∧
    AxesTuple.mk_
        ([⟨1, 1, [0], [0, 1], [1], fun x => x, fun x => x, fun x => x, fun _ => none⟩].map
          AxObj.axis)
      = .ok ⟨[⟨1, 1, [0], [0, 1], [1], fun x => x, fun x => x, fun x => x, fun _ => none⟩],
          []⟩) :=
  ⟨⟨AxObj.nonAxis "3.2", List.mem_singleton.2 rfl, rfl⟩,
   c4_construction [AxObj.nonAxis "3.2"]
     [⟨1, 1, [0], [0, 1], [1], fun x => x, fun x => x, fun x => x, fun _ => none⟩]
     ⟨AxObj.nonAxis "3.2", List.mem_singleton.2 rfl, rfl⟩⟩

/-- C5: when the requested name is one of the six reduction names, the
`ArrayTuple` attribute lookup yields the ensemble-reduction closure over
the broadcast members, whatever attributes the member arrays themselves
expose — the forwarded per-member read is never produced. -/
theorem c5_reduction_shadowing (name : String) (hn : name ∈ REDUCTIONS)
    (arrs : List NDArray) (memberAttr : NDArray → String → Option Int) :
    ArrayTuple.getattr_ arrs memberAttr name = .reduction name (broadcastArrays arrs) ∧
    ∀ vals, ArrayTuple.getattr_ arrs memberAttr name ≠ .forwarded vals := by
  constructor
  · unfold ArrayTuple.getattr_
    rw [if_pos hn]
  · intro vals hcon
    unfold ArrayTuple.getattr_ at hcon
    rw [if_pos hn] at hcon
    exact ATAttr.noConfusion hcon

/-- C5 witness: a member whose own attribute table exposes "sum" is still
shadowed by the ensemble reduction. -/
theorem c5_reduction_shadowing_witness :
    ("sum" ∈ REDUCTIONS) ∧
    ArrayTuple.getattr_ [(⟨[1], fun _ => 7⟩ : NDArray)]
        (fun _ n => if n = "sum" then some 99 else none) "sum"
      = .reduction "sum" (broadcastArrays [(⟨[1], fun _ => 7⟩ : NDArray)]) :=
  ⟨by decide,
    (c5_reduction_shadowing "sum" (by decide) [(⟨[1], fun _ => 7⟩ : NDArray)]
      (fun _ n => if n = "sum" then some 99 else none)).1⟩

/-- C6 witness: idempotence at a concrete one-member tuple of shape `[2]`. -/
theorem c6_broadcast_idempotent_witness :
    (∃ bs2, ArrayTuple.broadcast
        ((ArrayTuple.broadcast [(⟨[2], fun _ => 5⟩ : NDArray)]).getD []) = some bs2 ∧
      List.Forall₂ NDArray.Eqv bs2
        ((ArrayTuple.broadcast [(⟨[2], fun _ => 5⟩ : NDArray)]).getD [])) ∧
    (∃ ds, ArrayTuple.broadcast [(⟨[2], fun _ => 5⟩ : NDArray)] = some ds ∧
      List.Forall₂ NDArray.Eqv ds [(⟨[2], fun _ => 5⟩ : NDArray)]) :=
  c6_broadcast_idempotent [(⟨[2], fun _ => 5⟩ : NDArray)]
    ((ArrayTuple.broadcast [(⟨[2], fun _ => 5⟩ : NDArray)]).getD [])
    [(⟨[2], fun _ => 5⟩ : NDArray)] [2] rfl
    (by intro a ha; rw [List.mem_singleton.1 ha]) (by simp)

/-- C7: writing an attribute not defined on the container itself with one
value per axis succeeds, and reading the same attribute back returns
exactly the written values in order; writing with a different number of
values fails with the arity-mismatch error of the strict zip. -/
theorem c7_setattr_roundtrip (t : AxesT) (name : String) (vs : List Int)
    (hname : name ∉ AxesTuple.containerAttrNames) :
    (vs.length = t.members.length →
      ∃ t', AxesTuple.setattr t name vs = .ok t' ∧
        AxesTuple.getattr_ t' name = .forwarded (vs.map some)) ∧
    (vs.length ≠ t.members.length →
      AxesTuple.setattr t name vs
        = .error (.valueError "zip_strict arguments have mismatched lengths")) := by
  have hslot : name ∉ AxesTuple.slots := by simp [AxesTuple.slots]
  constructor
  · intro hlen
    refine ⟨{ t with members := (t.members.zip vs).map fun p => Axis.setattrA p.1 name p.2 },
      ?_, ?_⟩
    · unfold AxesTuple.setattr
      rw [if_neg hslot]
      unfold AxesTuple.zipStrict
      rw [if_pos hlen.symm]
      rfl
    · unfold AxesTuple.getattr_
      rw [if_neg hname]
      congr 1
      rw [List.map_map]
      have hpt : ∀ p ∈ t.members.zip vs,
          ((fun s => s.attrs name) ∘ fun p => Axis.setattrA p.1 name p.2) p = some p.2 := by
        intro p _
        simp [Axis.setattrA]
      rw [List.map_congr_left hpt]
      exact zip_map_snd t.members vs hlen.symm
  · intro hne
    unfold AxesTuple.setattr
    rw [if_neg hslot]
    unfold AxesTuple.zipStrict
    rw [if_neg fun hc => hne hc.symm]
    rfl

/-- C7 witness: the round trip on a one-axis container with the attribute
"label", and the arity failure with two values. -/
theorem c7_setattr_roundtrip_witness :
    ("label" ∉ AxesTuple.containerAttrNames) ∧
    (∃ t', AxesTuple.setattr
        ⟨[⟨1, 2, [0], [0, 1], [1], fun x => x, fun x => x, fun x => x, fun _ => none⟩], []⟩
        "label" [7] = .ok t' ∧
      AxesTuple.getattr_ t' "label" = .forwarded ([7].map some)) ∧
    AxesTuple.setattr
        ⟨[⟨1, 2, [0], [0, 1], [1], fun x => x, fun x => x, fun x => x, fun _ => none⟩], []⟩
        "label" [7, 8]
      = .error (.valueError "zip_strict arguments have mismatched lengths") :=
  ⟨by decide,
   (c7_setattr_roundtrip
      ⟨[⟨1, 2, [0], [0, 1], [1], fun x => x, fun x => x, fun x => x, fun _ => none⟩], []⟩
      "label" [7] (by decide)).1 rfl,
   (c7_setattr_roundtrip
      ⟨[⟨1, 2, [0], [0, 1], [1], fun x => x, fun x => x, fun x => x, fun _ => none⟩], []⟩
      "label" [7, 8] (by decide)).2 (by decide)⟩

/-- C8: a single index returns the bare i-th axis descriptor, not a
container; a slice returns a freshly validated `AxesTuple` holding exactly
the corresponding sub-sequence in order. -/
theorem c8_getitem (t : AxesT) (i a b : Nat) (h : i < t.members.length) :
    AxesTuple.getitem t (.idx i) = .axis (t.members.get ⟨i, h⟩) ∧
    AxesTuple.getitem t (.slice a b) = .tup ⟨AxesTuple.pySlice a b t.members, []⟩ := by
  constructor
  · simp only [AxesTuple.getitem]
    rw [dif_pos h]
  · simp only [AxesTuple.getitem]
    rw [mk_axes_ok]

/-- C8 witness: indexing and slicing a concrete two-axis container. -/
theorem c8_getitem_witness :
    AxesTuple.getitem
      ⟨[⟨3, 4, [10, 20, 30], [0, 1, 2, 3], [1, 1, 1], fun x => x, fun x => x, fun x => x,
          fun _ => none⟩,
        ⟨2, 3, [5, 15], [0, 10, 20], [10, 10], fun x => x, fun x => x, fun x => x,
          fun _ => none⟩], []⟩ (.idx 1)
      = .axis ((⟨[⟨3, 4, [10, 20, 30], [0, 1, 2, 3], [1, 1, 1], fun x => x, fun x => x,
          fun x => x, fun _ => none⟩,
        ⟨2, 3, [5, 15], [0, 10, 20], [10, 10], fun x => x, fun x => x, fun x => x,
          fun _ => none⟩], []⟩ : AxesT).members.get ⟨1, by decide⟩) ∧
    AxesTuple.getitem
      ⟨[⟨3, 4, [10, 20, 30], [0, 1, 2, 3], [1, 1, 1], fun x => x, fun x => x, fun x => x,
          fun _ => none⟩,
        ⟨2, 3, [5, 15], [0, 10, 20], [10, 10], fun x => x, fun x => x, fun x => x,
          fun _ => none⟩], []⟩ (.slice 0 1)
      = .tup ⟨AxesTuple.pySlice 0 1
          (⟨[⟨3, 4, [10, 20, 30], [0, 1, 2, 3], [1, 1, 1], fun x => x, fun x => x, fun x => x,
              fun _ => none⟩,
            ⟨2, 3, [5, 15], [0, 10, 20], [10, 10], fun x => x, fun x => x, fun x => x,
              fun _ => none⟩], []⟩ : AxesT).members, []⟩ :=
  c8_getitem
    ⟨[⟨3, 4, [10, 20, 30], [0, 1, 2, 3], [1, 1, 1], fun x => x, fun x => x, fun x => x,
        fun _ => none⟩,
      ⟨2, 3, [5, 15], [0, 10, 20], [10, 10], fun x => x, fun x => x, fun x => x,
        fun _ => none⟩], []⟩ 1 0 1 (by decide)

/-- C9: on an empty `ArrayTuple`, accessing any reduction name returns the
reduction closure over the (empty, successful) broadcast — no special-case
crash — `broadcast()` returns the empty tuple, and calling the reductions
produces NumPy's empty-ensemble conventions: sum 0, prod 1, any false,
all true, and NumPy's zero-size reduction error for min/max. -/
theorem c9_empty (name : String) (hn : name ∈ REDUCTIONS)
    (memberAttr : NDArray → String → Option Int) :
    ArrayTuple.getattr_ [] memberAttr name = .reduction name (some []) ∧
    ArrayTuple.broadcast [] = some [] ∧
    ArrayTuple.callReduction "sum" [] = some (some (.int 0)) ∧
    ArrayTuple.callReduction "prod" [] = some (some (.int 1)) ∧
    ArrayTuple.callReduction "any" [] = some (some (.bool false)) ∧
    ArrayTuple.callReduction "all" [] = some (some (.bool true)) ∧
    ArrayTuple.callReduction "min" [] = some none ∧
    ArrayTuple.callReduction "max" [] = some none := by
  refine ⟨?_, rfl, by decide, by decide, by decide, by decide, by decide, by decide⟩
  unfold ArrayTuple.getattr_
  rw [if_pos hn]
  rfl

/-- C9 witness: the empty tuple's "sum" access. -/
theorem c9_empty_witness :
    ("sum" ∈ REDUCTIONS) ∧
    ArrayTuple.getattr_ [] (fun _ _ => none) "sum" = .reduction "sum" (some []) :=
  ⟨by decide, (c9_empty "sum" (by decide) (fun _ _ => none)).1⟩

/-- C10: every successful attribute write on an `AxesTuple` bypasses
instance storage (the declared slots are empty, so local storage always
fails) and is distributed positionally over the member axes: the
container's own stored attributes and the number and order of its members
are unchanged, member i becoming member i with the written attribute. -/
theorem c10_setattr_frame (t : AxesT) (name : String) (vs : List Int) (t' : AxesT)
    (h : AxesTuple.setattr t name vs = .ok t') :
    name ∉ AxesTuple.slots ∧
    t'.localAttrs = t.localAttrs ∧
    vs.length = t.members.length ∧
    t'.members.length = t.members.length ∧
    t'.members = (t.members.zip vs).map fun p => Axis.setattrA p.1 name p.2 := by
  have hslot : name ∉ AxesTuple.slots := by simp [AxesTuple.slots]
  unfold AxesTuple.setattr at h
  rw [if_neg hslot] at h
  unfold AxesTuple.zipStrict at h
  by_cases hlen : t.members.length = vs.length
  · rw [if_pos hlen] at h
    simp only [Except.map] at h
    injection h with h2
    subst h2
    refine ⟨hslot, rfl, hlen.symm, ?_, rfl⟩
    simp [List.length_zip, hlen]
  · rw [if_neg hlen] at h
    simp only [Except.map] at h
    exact absurd h (by simp)

/-- C10 witness: a concrete write of "label" forwarded to the single
member, leaving the container state untouched. -/
theorem c10_setattr_frame_witness :
    AxesTuple.setattr
        ⟨[⟨1, 2, [0], [0, 1], [1], fun x => x, fun x => x, fun x => x, fun _ => none⟩], []⟩
        "label" [7]
      = .ok ⟨[Axis.setattrA
          ⟨1, 2, [0], [0, 1], [1], fun x => x, fun x => x, fun x => x, fun _ => none⟩
          "label" 7], []⟩ ∧
    ("label" ∉ AxesTuple.slots ∧
      (⟨[Axis.setattrA
          ⟨1, 2, [0], [0, 1], [1], fun x => x, fun x => x, fun x => x, fun _ => none⟩
          "label" 7], []⟩ : AxesT).localAttrs
        = (⟨[⟨1, 2, [0], [0, 1], [1], fun x => x, fun x => x, fun x => x, fun _ => none⟩],
            []⟩ : AxesT).localAttrs ∧
      ([7] : List Int).length
        = (⟨[⟨1, 2, [0], [0, 1], [1], fun x => x, fun x => x, fun x => x, fun _ => none⟩],
            []⟩ : AxesT).members.length ∧
      (⟨[Axis.setattrA
          ⟨1, 2, [0], [0, 1], [1], fun x => x, fun x => x, fun x => x, fun _ => none⟩
          "label" 7], []⟩ : AxesT).members.length
        = (⟨[⟨1, 2, [0], [0, 1], [1], fun x => x, fun x => x, fun x => x, fun _ => none⟩],
            []⟩ : AxesT).members.length ∧
      (⟨[Axis.setattrA
          ⟨1, 2, [0], [0, 1], [1], fun x => x, fun x => x, fun x => x, fun _ => none⟩
          "label" 7], []⟩ : AxesT).members
        = ((⟨[⟨1, 2, [0], [0, 1], [1], fun x => x, fun x => x, fun x => x, fun _ => none⟩],
            []⟩ : AxesT).members.zip [7]).map fun p => Axis.setattrA p.1 "label" p.2) :=
  ⟨rfl,
   c10_setattr_frame
     ⟨[⟨1, 2, [0], [0, 1], [1], fun x => x, fun x => x, fun x => x, fun _ => none⟩], []⟩
     "label" [7]
     ⟨[Axis.setattrA
        ⟨1, 2, [0], [0, 1], [1], fun x => x, fun x => x, fun x => x, fun _ => none⟩
        "label" 7], []⟩ rfl⟩

end BH
